import Mathlib

/-
Verification of the result-extraction and presentation pipeline of the
gommit-m command-line client (src/main.go).

The embedding models the program at the granularity the goquery calls
observe: a parsed document is a list of table rows (each row a list of
cells, each cell carrying its text and its anchors), a list of
"div.container" child-node lists, and the text of the sibling element
preceding the "next page" pagination control.  Fallible behaviour
(a Go index-out-of-range panic on the fixed-size arrays cellsTxt and
cellsHref) is modelled with Option: a None result of the extractor means
the program crashed.
-/

set_option autoImplicit false

/-- Whitespace predicate used by strings.Fields and strings.TrimSpace
(unicode.IsSpace restricted to the code points relevant here). -/
def goIsSpace (c : Char) : Bool :=
  c = ' ' || c = '\t' || c = '\n' || c = Char.ofNat 0x0B || c = Char.ofNat 0x0C ||
  c = '\r' || c = Char.ofNat 0x85 || c = Char.ofNat 0xA0

/-- strings.TrimSpace: drop leading and trailing whitespace. -/
def trimSpace (s : String) : String :=
  String.mk (((s.toList.dropWhile goIsSpace).reverse.dropWhile goIsSpace).reverse)

/-- An anchor element inside a table cell, carrying its href attribute
(empty string when the attribute is absent, as goquery's Attr returns). -/
structure Anchor where
  href : String
deriving DecidableEq

/-- A td cell of a table row: its text content and the anchors found inside
it, in document order. -/
structure Cell where
  text : String
  anchors : List Anchor
deriving DecidableEq

/-- A tr row of the results table: its td cells in document order. -/
structure Row where
  cells : List Cell
deriving DecidableEq

/-- The commit record of src/main.go (type commit). -/
structure Commit where
  Repo : String
  RepoURL : String
  Sha1 : String
  CommitURL : String
  Message : String
deriving DecidableEq

/-- The QueryResult record of src/main.go. -/
structure QueryResult where
  Commits : List Commit
  ResultCount : String
  TotalPages : String
deriving DecidableEq

/-- The JsonFormat record of src/main.go (structured output envelope). -/
structure JsonFormat where
  Commits : List Commit
  Error : String
deriving DecidableEq

/-- A child node of a "div.container" element: a text node (html.TextNode,
Type 1) or a nested element (whose own text the result-count scan ignores). -/
inductive ChildNode where
  | textNode (data : String)
  | elemNode (data : String)
deriving DecidableEq

/-- The parts of the parsed document the program reads: the rows of
"table.table", the child-node lists of the "div.container" elements, and
the text of the sibling preceding the "ul.pagination li.next_page" control
(empty string when there is no pagination control, matching goquery's
Text() on an empty selection). -/
structure Doc where
  rows : List Row
  containers : List (List ChildNode)
  prevOfNextPageText : String
deriving DecidableEq

/-- A bounds-checked write into a Go fixed-size array: `arraySet l i v`
is the updated array, or none when the index is out of range — the Go
program panics there. -/
def arraySet (l : List String) (i : Nat) (v : String) : Option (List String) :=
  match l, i with
  | [], _ => none
  | _ :: xs, 0 => some (v :: xs)
  | x :: xs, n + 1 => (arraySet xs n v).map (fun ys => x :: ys)

/-- The inner anchor loop of crawl: for each anchor with a non-empty href,
write it at cellsHref[hrefIndex] and increment hrefIndex.  Returns the
updated array and counter, or none on an out-of-range write (Go panic). -/
def writeHrefs (hrefs : List String) (hi : Nat) : List Anchor → Option (List String × Nat)
  | [] => some (hrefs, hi)
  | a :: rest =>
    if a.href = "" then
      writeHrefs hrefs hi rest
    else
      match arraySet hrefs hi a.href with
      | none => none
      | some h2 => writeHrefs h2 (hi + 1) rest

/-- The cell loop of crawl: cellsTxt[i] = cell text, then the anchor loop,
then the next cell.  Returns the final (cellsTxt, cellsHref), or none when
any fixed-array write went out of range (Go panic). -/
def processCells : List String → List String → Nat → Nat → List Cell → Option (List String × List String)
  | txt, hrefs, _, _, [] => some (txt, hrefs)
  | txt, hrefs, hi, i, c :: rest =>
    match arraySet txt i c.text with
    | none => none
    | some t2 =>
      match writeHrefs hrefs hi c.anchors with
      | none => none
      | some (h2, hi2) => processCells t2 h2 hi2 (i + 1) rest

/-- One iteration of the row loop of crawl (src/main.go lines 88-112):
none = the program panicked on this row; some none = the row was silently
skipped (empty sha1); some (some c) = the row produced the commit c. -/
def processRow (row : Row) : Option (Option Commit) :=
  match processCells ["", "", ""] ["", ""] 0 0 row.cells with
  | none => none
  | some (txt, hrefs) =>
    let c : Commit :=
      { Message := trimSpace (txt.getD 0 "")
        Repo := txt.getD 1 ""
        RepoURL := hrefs.getD 0 ""
        Sha1 := txt.getD 2 ""
        CommitURL := hrefs.getD 1 "" }
    some (if c.Sha1 ≠ "" then some c else none)

/-- The full row loop of crawl: the extracted commit sequence in document
order, or none when any row made the program panic. -/
def crawlRows : List Row → Option (List Commit)
  | [] => some []
  | r :: rest =>
    match processRow r with
    | none => none
    | some none => crawlRows rest
    | some (some c) => (crawlRows rest).map (fun cs => c :: cs)

/-- The hrefs a cell contributes: its anchors with non-empty href, in order. -/
def filteredHrefs (anchors : List Anchor) : List String :=
  anchors.filterMap (fun a => if a.href = "" then none else some a.href)

/-- All non-empty hrefs collected from a list of cells, in document order. -/
def hrefsOfCells : List Cell → List String
  | [] => []
  | c :: rest => filteredHrefs c.anchors ++ hrefsOfCells rest

/-- All non-empty hrefs of a row, in document order. -/
def rowHrefs (r : Row) : List String := hrefsOfCells r.cells

/-- Number of non-empty anchor hrefs in a row. -/
def rowHrefCount (r : Row) : Nat := (rowHrefs r).length

/-- Spec-side description of the extractor on one row (amended wording):
positional fields with empty-string defaults — cell 0 text trimmed to
message, cell 1 text to repo, cell 2 text to sha1, first collected href to
repoUrl, second to commitUrl — and the row is accepted exactly when the raw
sha1 cell text is non-empty (no whitespace trimming is applied to sha1). -/
def specExtractRow (r : Row) : Option Commit :=
  let texts := r.cells.map Cell.text
  let hrefs := rowHrefs r
  let c : Commit :=
    { Message := trimSpace (texts.getD 0 "")
      Repo := texts.getD 1 ""
      RepoURL := hrefs.getD 0 ""
      Sha1 := texts.getD 2 ""
      CommitURL := hrefs.getD 1 "" }
  if c.Sha1 ≠ "" then some c else none

/-- Sequential in-bounds writes: `setList l i vs` writes vs at positions
i, i+1, ... of l (total; used to state what the array loops compute). -/
def setList (l : List String) (i : Nat) : List String → List String
  | [] => l
  | v :: vs => setList (l.set i v) (i + 1) vs

/-- Modelled from the spec: the Width Calculator (the external
go-runewidth dependency, not part of this repository) classifies a glyph
as East-Asian-wide or fullwidth; such glyphs occupy 2 terminal columns. -/
def isWideChar (c : Char) : Bool :=
  let n := c.toNat
  (0x1100 ≤ n && n ≤ 0x115F) || (0x2E80 ≤ n && n ≤ 0x303E) ||
  (0x3041 ≤ n && n ≤ 0x33FF) || (0x3400 ≤ n && n ≤ 0x4DBF) ||
  (0x4E00 ≤ n && n ≤ 0x9FFF) || (0xA000 ≤ n && n ≤ 0xA4CF) ||
  (0xAC00 ≤ n && n ≤ 0xD7A3) || (0xF900 ≤ n && n ≤ 0xFAFF) ||
  (0xFE30 ≤ n && n ≤ 0xFE4F) || (0xFF00 ≤ n && n ≤ 0xFF60) ||
  (0xFFE0 ≤ n && n ≤ 0xFFE6) || (0x20000 ≤ n && n ≤ 0x2FFFD) ||
  (0x30000 ≤ n && n ≤ 0x3FFFD)

/-- Modelled from the spec: the per-glyph column width of the Width
Calculator — East-Asian-wide or fullwidth glyphs count as 2 columns and
all others count as 1. -/
def runeWidth (c : Char) : Nat := if isWideChar c then 2 else 1

/-- Modelled from the spec: runewidth.StringWidth, the rendered terminal
column width of a string — the sum of the per-glyph widths. -/
def stringWidth (s : String) : Nat :=
  s.toList.foldl (fun acc c => acc + runeWidth c) 0

/-- maxRepoWidth (src/main.go lines 147-156): the running maximum of
runewidth.StringWidth over the Repo fields. -/
def maxRepoWidth (commits : List Commit) : Nat :=
  commits.foldl (fun width c =>
    let count := stringWidth c.Repo
    if width < count then count else width) 0

/-- maxMessageWidth (src/main.go lines 158-167): the running maximum of
runewidth.StringWidth over the Message fields. -/
def maxMessageWidth (commits : List Commit) : Nat :=
  commits.foldl (fun width c =>
    let count := stringWidth c.Message
    if width < count then count else width) 0

/-- maxURLWidth (src/main.go lines 169-178): the running maximum of
utf8.RuneCountInString over the CommitURL fields — a code-point count
(String.length), not the display width. -/
def maxURLWidth (commits : List Commit) : Nat :=
  commits.foldl (fun width c =>
    let count := c.CommitURL.length
    if width < count then count else width) 0

/-- getTotalPages (src/main.go lines 137-145): the text of the sibling
before the next-page control, defaulting to "1" when it is empty (in
particular when there is no pagination control at all). -/
def getTotalPages (doc : Doc) : String :=
  let pages := doc.prevOfNextPageText
  if pages = "" then "1" else pages

/-- The leftmost match of the regular expression "(\x5cd+) results" in a
text-node string: at the first position starting a digit run that is
immediately followed by " results", the full matched substring (the digit
run and the literal " results"); none when no such position exists. -/
def findResultsMatch : List Char → Option String
  | [] => none
  | c :: rest =>
    if c.isDigit then
      let run := (c :: rest).takeWhile Char.isDigit
      let after := (c :: rest).dropWhile Char.isDigit
      if (" results".toList).isPrefixOf after then some (String.mk (run ++ " results".toList))
      else findResultsMatch rest
    else findResultsMatch rest

/-- The inner loop of getResultCount over the children of one container:
the match of the first text-node child (Type 1) whose data matches the
pattern; element children are skipped. -/
def firstTextMatch : List ChildNode → Option String
  | [] => none
  | ChildNode.textNode d :: rest =>
    match findResultsMatch d.toList with
    | some m => some m
    | none => firstTextMatch rest
  | ChildNode.elemNode _ :: rest => firstTextMatch rest

/-- getResultCount (src/main.go lines 120-135): iterate over every
"div.container"; a container with a matching text-node child overwrites
the running result with its first match; a container without one leaves
the previous value; initially the empty string. -/
def getResultCount (doc : Doc) : String :=
  doc.containers.foldl (fun results cont =>
    match firstTextMatch cont with
    | some m => m
    | none => results) ""

/-- Spec-side description for the amended result-count claim: the first
match of the last container that has any matching text-node child, or ""
when no container has one. -/
def specResultCount (containers : List (List ChildNode)) : String :=
  ((containers.filterMap firstTextMatch).getLast?).getD ""

/-- crawl (src/main.go lines 77-118).  The input is the outcome of the
external fetch (goquery.NewDocument): an error message or the parsed
document.  The result is the QueryResult paired with the returned error
(none on success); the outer none models a Go panic inside the row loop. -/
def crawl (fetch : Except String Doc) : Option (QueryResult × Option String) :=
  match fetch with
  | Except.error e =>
    some ({ Commits := [], ResultCount := "", TotalPages := "" }, some e)
  | Except.ok doc =>
    match crawlRows doc.rows with
    | none => none
    | some cs =>
      some ({ Commits := cs
              ResultCount := getResultCount doc
              TotalPages := getTotalPages doc }, none)

/-- showResultAsJson (src/main.go lines 219-229): the single record
written to standard output, as a value. -/
def showResultAsJson (result : QueryResult) (err : Option String) : JsonFormat :=
  match err with
  | some e => { Commits := [], Error := e }
  | none => { Commits := result.Commits, Error := "" }

/-- strings.Fields helper: split into maximal runs of non-whitespace;
acc holds the current run reversed. -/
def fieldsAux : List Char → List Char → List (List Char)
  | acc, [] => if acc.isEmpty then [] else [acc.reverse]
  | acc, c :: rest =>
    if goIsSpace c then
      if acc.isEmpty then fieldsAux [] rest else acc.reverse :: fieldsAux [] rest
    else fieldsAux (c :: acc) rest

/-- strings.Fields: the whitespace-separated terms of a string. -/
def goFields (s : String) : List String :=
  (fieldsAux [] s.toList).map String.mk

/-- The first alternative of the alternation that matches at this exact
position (Go regexp alternation tries the alternatives left to right). -/
def findTerm (terms : List (List Char)) (s : List Char) : Option (List Char) :=
  match terms with
  | [] => none
  | t :: rest => if t.isPrefixOf s then some t else findTerm rest s

/-- The scan of Regexp.ReplaceAllStringFunc for an alternation of literal
terms: leftmost-first, non-overlapping; each matched substring is replaced
by its decoration, unmatched characters are copied; after an empty match
the scan advances one character (Go empty-match semantics).  fuel is an
upper bound used only to make the recursion structural; the scan never
consumes more steps than characters. -/
def scanAuxF (terms : List (List Char)) (dec : String → String) : Nat → List Char → List Char
  | 0, s => s
  | _ + 1, [] =>
    match findTerm terms [] with
    | some _ => (dec "").toList
    | none => []
  | fuel + 1, c :: rest =>
    match findTerm terms (c :: rest) with
    | some [] => (dec "").toList ++ c :: scanAuxF terms dec fuel rest
    | some (t :: ts) => (dec (String.mk (t :: ts))).toList ++ scanAuxF terms dec fuel (rest.drop ts.length)
    | none => c :: scanAuxF terms dec fuel rest

/-- highlightWords (src/main.go lines 231-241): the keyword is split into
whitespace-separated terms, each escaped by regexp.QuoteMeta (so each is
matched literally) and joined into one alternation; every non-overlapping
leftmost-first match in the message is replaced by its decoration
(color.YellowString in the program, abstracted as dec).  When the term
list is empty, strings.Join yields the empty pattern, which matches the
empty string at every position — the same scan with the single empty
term. -/
def highlightWords (message keyword : String) (dec : String → String) : String :=
  let words := (goFields keyword).map String.toList
  let terms := if words.isEmpty then [([] : List Char)] else words
  String.mk (scanAuxF terms dec message.toList.length message.toList)

/-- The three color decorators of the Table Renderer (fatih/color),
treated per the spec as pure string-decoration functions. -/
structure Decorators where
  blue : String → String
  cyan : String → String
  yellow : String → String

/-- Go fmt left-justified string padding "%-Ns": pad on the right with
spaces up to N runes. -/
def padRight (s : String) (w : Nat) : String :=
  s ++ String.mk (List.replicate (w - s.length) ' ')

/-- Go fmt right-justified string padding "%Ns": pad on the left with
spaces up to N runes. -/
def padLeft (s : String) (w : Nat) : String :=
  String.mk (List.replicate (w - s.length) ' ') ++ s

/-- showResult (src/main.go lines 180-217): the lines written to the
display, in order.  The empty-commit branch prints the fixed notice, the
query URL and the blank line of the trailing double newline; otherwise
the summary line, the URL line, a blank line, the header, the dashed
separator of length repoWidth + msgWidth + urlWidth + 18, and one line
per commit. -/
def showResult (d : Decorators) (result : QueryResult) (url keyword : String) (page : Int) : List String :=
  let commits := result.Commits
  if commits.isEmpty then
    ["No Results Found.", "  url: " ++ url, ""]
  else
    let repoWidth := maxRepoWidth commits
    let urlWidth := maxURLWidth commits
    let msgWidth := maxMessageWidth commits
    ["Search Result : " ++ result.ResultCount ++ " : " ++ toString page ++ "/" ++ result.TotalPages ++ " pages",
     "  url: " ++ url,
     "",
     " " ++ d.blue (padRight "Repository" repoWidth) ++ " | " ++ d.cyan (padRight "sha1" 7) ++ " | " ++ padRight "url" urlWidth ++ " | message ",
     String.mk (List.replicate (repoWidth + msgWidth + urlWidth + 18) '-')] ++
    commits.map (fun c =>
      " " ++ d.blue (padRight c.Repo repoWidth) ++ " | " ++ padLeft (d.cyan c.Sha1) 7 ++ " | " ++
      padRight c.CommitURL urlWidth ++ " | " ++ highlightWords c.Message keyword d.yellow)

/-! ### Lemmas about the fixed-array writes of the Commit Extractor -/

theorem arraySet_lt (l : List String) (i : Nat) (v : String) (h : i < l.length) :
    arraySet l i v = some (l.set i v) := by
  induction l generalizing i with
  | nil => simp at h
  | cons x xs ih =>
    cases i with
    | zero => rfl
    | succ n =>
      simp only [arraySet, List.set]
      rw [ih n (by simpa using h)]
      rfl

theorem arraySet_ge (l : List String) (i : Nat) (v : String) (h : l.length ≤ i) :
    arraySet l i v = none := by
  induction l generalizing i with
  | nil => rfl
  | cons x xs ih =>
    cases i with
    | zero => simp at h
    | succ n =>
      simp only [arraySet]
      rw [ih n (by simpa using h)]
      rfl

theorem filteredHrefs_nil : filteredHrefs [] = [] := rfl

theorem filteredHrefs_cons (a : Anchor) (rest : List Anchor) :
    filteredHrefs (a :: rest) =
      if a.href = "" then filteredHrefs rest else a.href :: filteredHrefs rest := by
  by_cases h : a.href = "" <;> simp [filteredHrefs, List.filterMap_cons, h]

theorem length_setList (vs : List String) (l : List String) (i : Nat) :
    (setList l i vs).length = l.length := by
  induction vs generalizing l i with
  | nil => rfl
  | cons v vs ih => simp [setList, ih, List.length_set]

theorem setList_append (xs ys : List String) (l : List String) (i : Nat) :
    setList l i (xs ++ ys) = setList (setList l i xs) (i + xs.length) ys := by
  induction xs generalizing l i with
  | nil => simp [setList]
  | cons x xs ih =>
    have h : i + (x :: xs).length = (i + 1) + xs.length := by simp; omega
    rw [h, List.cons_append]
    simp only [setList]
    rw [ih]

theorem writeHrefs_eq (anchors : List Anchor) (hrefs : List String) (hi : Nat)
    (hlen : hrefs.length = 2) (hcnt : hi + (filteredHrefs anchors).length ≤ 2) :
    writeHrefs hrefs hi anchors =
      some (setList hrefs hi (filteredHrefs anchors), hi + (filteredHrefs anchors).length) := by
  induction anchors generalizing hrefs hi with
  | nil => simp [writeHrefs, filteredHrefs_nil, setList]
  | cons a rest ih =>
    by_cases ha : a.href = ""
    · rw [filteredHrefs_cons, if_pos ha] at hcnt ⊢
      rw [writeHrefs, if_pos ha]
      exact ih hrefs hi hlen hcnt
    · rw [filteredHrefs_cons, if_neg ha] at hcnt ⊢
      have hlt : hi < 2 := by simp at hcnt; omega
      have hlen2 : hi + (a.href :: filteredHrefs rest).length = (hi + 1) + (filteredHrefs rest).length := by
        simp
        omega
      rw [hlen2]
      simp only [writeHrefs, if_neg ha, arraySet_lt hrefs hi a.href (by omega)]
      rw [ih (hrefs.set hi a.href) (hi + 1) (by simp [List.length_set, hlen]) (by simp at hcnt ⊢; omega)]
      simp only [setList]

theorem writeHrefs_none (anchors : List Anchor) (hrefs : List String) (hi : Nat)
    (hlen : hrefs.length = 2) (hhi : hi ≤ 2)
    (hcnt : 2 < hi + (filteredHrefs anchors).length) :
    writeHrefs hrefs hi anchors = none := by
  induction anchors generalizing hrefs hi with
  | nil => rw [filteredHrefs_nil] at hcnt; simp at hcnt; omega
  | cons a rest ih =>
    by_cases ha : a.href = ""
    · rw [filteredHrefs_cons, if_pos ha] at hcnt
      rw [writeHrefs, if_pos ha]
      exact ih hrefs hi hlen hhi hcnt
    · rw [filteredHrefs_cons, if_neg ha] at hcnt
      rw [writeHrefs, if_neg ha]
      by_cases hlt : hi < 2
      · rw [arraySet_lt hrefs hi a.href (by omega)]
        exact ih (hrefs.set hi a.href) (hi + 1) (by simp [List.length_set, hlen])
          (by omega) (by simp at hcnt ⊢; omega)
      · rw [arraySet_ge hrefs hi a.href (by omega)]

theorem hrefsOfCells_cons (c : Cell) (rest : List Cell) :
    hrefsOfCells (c :: rest) = filteredHrefs c.anchors ++ hrefsOfCells rest := rfl

theorem processCells_eq (cells : List Cell) (txt hrefs : List String) (hi i : Nat)
    (htxt : txt.length = 3) (hhr : hrefs.length = 2)
    (hcells : i + cells.length ≤ 3) (hcnt : hi + (hrefsOfCells cells).length ≤ 2) :
    processCells txt hrefs hi i cells =
      some (setList txt i (cells.map Cell.text), setList hrefs hi (hrefsOfCells cells)) := by
  induction cells generalizing txt hrefs hi i with
  | nil => simp [processCells, setList, hrefsOfCells]
  | cons c rest ih =>
    rw [hrefsOfCells_cons] at hcnt
    have hi3 : i < 3 := by simp at hcells; omega
    have hsub : hi + (filteredHrefs c.anchors).length ≤ 2 := by simp at hcnt; omega
    simp only [processCells, arraySet_lt txt i c.text (by omega),
      writeHrefs_eq c.anchors hrefs hi hhr hsub]
    rw [ih (txt.set i c.text) (setList hrefs hi (filteredHrefs c.anchors))
      (hi + (filteredHrefs c.anchors).length) (i + 1)
      (by simp [List.length_set, htxt]) (by simp [length_setList, hhr])
      (by simp at hcells ⊢; omega) (by simp at hcnt ⊢; omega)]
    rw [hrefsOfCells_cons, setList_append]
    simp only [List.map_cons, setList]

theorem processCells_none_txt (cells : List Cell) (txt hrefs : List String) (hi i : Nat)
    (htxt : txt.length = 3) (hle : i ≤ 3) (hgt : 3 < i + cells.length) :
    processCells txt hrefs hi i cells = none := by
  induction cells generalizing txt hrefs hi i with
  | nil => simp at hgt; omega
  | cons c rest ih =>
    by_cases h3 : i < 3
    · simp only [processCells, arraySet_lt txt i c.text (by omega)]
      cases hw : writeHrefs hrefs hi c.anchors with
      | none => rfl
      | some p =>
        exact ih (txt.set i c.text) p.1 p.2 (i + 1)
          (by simp [List.length_set, htxt]) (by omega) (by simp at hgt ⊢; omega)
    · simp only [processCells, arraySet_ge txt i c.text (by omega)]

theorem processCells_none_hrefs (cells : List Cell) (txt hrefs : List String) (hi i : Nat)
    (hhr : hrefs.length = 2) (hhi : hi ≤ 2)
    (hgt : 2 < hi + (hrefsOfCells cells).length) :
    processCells txt hrefs hi i cells = none := by
  induction cells generalizing txt hrefs hi i with
  | nil => simp [hrefsOfCells] at hgt; omega
  | cons c rest ih =>
    rw [hrefsOfCells_cons] at hgt
    cases ha : arraySet txt i c.text with
    | none => simp only [processCells, ha]
    | some t2 =>
      by_cases hc : hi + (filteredHrefs c.anchors).length ≤ 2
      · simp only [processCells, ha, writeHrefs_eq c.anchors hrefs hi hhr hc]
        exact ih t2 (setList hrefs hi (filteredHrefs c.anchors))
          (hi + (filteredHrefs c.anchors).length) (i + 1)
          (by simp [length_setList, hhr]) hc (by simp at hgt ⊢; omega)
      · simp only [processCells, ha, writeHrefs_none c.anchors hrefs hi hhr hhi (by omega)]

theorem setList3 (ts : List String) (h : ts.length ≤ 3) :
    setList ["", "", ""] 0 ts = [ts.getD 0 "", ts.getD 1 "", ts.getD 2 ""] := by
  rcases ts with _ | ⟨a, _ | ⟨b, _ | ⟨c, _ | ⟨d, rest⟩⟩⟩⟩
  · rfl
  · rfl
  · rfl
  · rfl
  · simp at h

theorem setList2 (hs : List String) (h : hs.length ≤ 2) :
    setList ["", ""] 0 hs = [hs.getD 0 "", hs.getD 1 ""] := by
  rcases hs with _ | ⟨a, _ | ⟨b, _ | ⟨c, rest⟩⟩⟩
  · rfl
  · rfl
  · rfl
  · simp at h

/-- The Commit Extractor on one in-bounds row agrees with the spec-side
positional description. -/
theorem processRow_eq (row : Row) (hc : row.cells.length ≤ 3) (hh : rowHrefCount row ≤ 2) :
    processRow row = some (specExtractRow row) := by
  have hh2 : (hrefsOfCells row.cells).length ≤ 2 := hh
  unfold processRow specExtractRow
  rw [processCells_eq row.cells ["", "", ""] ["", ""] 0 0 rfl rfl (by omega) (by omega)]
  rw [setList3 (row.cells.map Cell.text) (by simp [hc]), setList2 (hrefsOfCells row.cells) hh2]
  simp only [rowHrefs, List.getD_cons_zero, List.getD_cons_succ]

/-- A row with more than 3 td cells makes the extractor panic. -/
theorem processRow_none_cells (row : Row) (h : 3 < row.cells.length) :
    processRow row = none := by
  unfold processRow
  rw [processCells_none_txt row.cells ["", "", ""] ["", ""] 0 0 rfl (by omega) (by omega)]

/-- A row with more than 2 non-empty anchor hrefs makes the extractor panic. -/
theorem processRow_none_hrefs (row : Row) (h : 2 < rowHrefCount row) :
    processRow row = none := by
  have h2 : 2 < (hrefsOfCells row.cells).length := h
  unfold processRow
  rw [processCells_none_hrefs row.cells ["", "", ""] ["", ""] 0 0 rfl (by omega) (by omega)]

/-- The full row loop agrees with filterMap of the spec-side extractor on
in-bounds tables. -/
theorem crawlRows_eq (rows : List Row)
    (h : ∀ r ∈ rows, r.cells.length ≤ 3 ∧ rowHrefCount r ≤ 2) :
    crawlRows rows = some (rows.filterMap specExtractRow) := by
  induction rows with
  | nil => rfl
  | cons r rest ih =>
    have hr := h r (by simp)
    have htail := ih (fun x hx => h x (by simp [hx]))
    simp only [crawlRows]
    rw [processRow_eq r hr.1 hr.2]
    cases hs : specExtractRow r with
    | none => simp [List.filterMap_cons, hs, htail]
    | some c => simp [List.filterMap_cons, hs, htail]

/-! ### Lemmas about the Keyword Highlighter -/

/-- Whether t occurs as a contiguous substring of s (anywhere). -/
def occursWithin (t : List Char) : List Char → Bool
  | [] => t.isEmpty
  | c :: rest => t.isPrefixOf (c :: rest) || occursWithin t rest

theorem mkToList (s : String) : String.mk s.toList = s := rfl

theorem findTerm_none (terms : List (List Char)) (s : List Char)
    (h : ∀ t ∈ terms, t.isPrefixOf s = false) : findTerm terms s = none := by
  induction terms with
  | nil => rfl
  | cons t rest ih =>
    simp only [findTerm, h t (by simp)]
    exact ih (fun u hu => h u (by simp [hu]))

theorem findTerm_sound (terms : List (List Char)) (s t : List Char)
    (h : findTerm terms s = some t) : t.isPrefixOf s = true := by
  induction terms with
  | nil => simp [findTerm] at h
  | cons u rest ih =>
    by_cases hp : u.isPrefixOf s
    · simp only [findTerm, if_pos hp] at h
      cases h
      exact hp
    · simp only [findTerm, if_neg hp] at h
      exact ih h

theorem startsEq (t : List Char) : ∀ s : List Char, t.isPrefixOf s = true →
    t ++ s.drop t.length = s := by
  induction t with
  | nil => intro s _; simp
  | cons a t' ih =>
    intro s h
    cases s with
    | nil => simp at h
    | cons b s' =>
      rw [List.isPrefixOf_cons₂] at h
      simp only [Bool.and_eq_true, beq_iff_eq] at h
      simp [h.1, ih s' h.2]

/-- The scan with the identity decoration returns every message
unchanged: matched substrings are replaced by exactly themselves and
unmatched text is copied. -/
theorem scan_id (terms : List (List Char)) : ∀ (fuel : Nat) (s : List Char),
    scanAuxF terms (fun x => x) fuel s = s := by
  intro fuel
  induction fuel with
  | zero => intro s; rfl
  | succ n ih =>
    intro s
    cases s with
    | nil =>
      simp only [scanAuxF]
      cases hf : findTerm terms [] <;> rfl
    | cons c rest =>
      simp only [scanAuxF]
      cases hf : findTerm terms (c :: rest) with
      | none => simp [ih rest]
      | some t =>
        cases t with
        | nil => simp [ih rest]
        | cons a ts =>
          have hp := findTerm_sound terms (c :: rest) (a :: ts) hf
          have he := startsEq (a :: ts) (c :: rest) hp
          simp only [List.length_cons, List.drop_succ_cons] at he
          simpa [ih] using he

/-- When no term of the alternation occurs anywhere in the message, the
scan returns the message unchanged whatever the decoration is. -/
theorem scan_nomatch (terms : List (List Char)) (dec : String → String) :
    ∀ (fuel : Nat) (s : List Char), (∀ t ∈ terms, occursWithin t s = false) →
    scanAuxF terms dec fuel s = s := by
  intro fuel
  induction fuel with
  | zero => intro s _; rfl
  | succ n ih =>
    intro s h
    cases s with
    | nil =>
      have hpref : ∀ t ∈ terms, t.isPrefixOf ([] : List Char) = false := by
        intro t ht
        have := h t ht
        cases t with
        | nil => simp [occursWithin] at this
        | cons a as => rfl
      simp [scanAuxF, findTerm_none terms [] hpref]
    | cons c rest =>
      have hsplit : ∀ t ∈ terms,
          t.isPrefixOf (c :: rest) = false ∧ occursWithin t rest = false := by
        intro t ht
        have := h t ht
        simp only [occursWithin, Bool.or_eq_false_iff] at this
        exact this
      have hpref : ∀ t ∈ terms, t.isPrefixOf (c :: rest) = false :=
        fun t ht => (hsplit t ht).1
      have hrest : ∀ t ∈ terms, occursWithin t rest = false :=
        fun t ht => (hsplit t ht).2
      simp [scanAuxF, findTerm_none terms (c :: rest) hpref, ih rest hrest]

/-! ### Lemmas about the column-width maxima -/

theorem widthFold_ge (g : Commit → Nat) :
    ∀ (l : List Commit) (a : Nat), a ≤ l.foldl (fun w c => if w < g c then g c else w) a := by
  intro l
  induction l with
  | nil => intro a; simp
  | cons x rest ih =>
    intro a
    refine le_trans ?_ (ih (if a < g x then g x else a))
    split <;> omega

theorem widthFold_le_of_mem (g : Commit → Nat) :
    ∀ (l : List Commit) (a : Nat) (c : Commit), c ∈ l →
      g c ≤ l.foldl (fun w c => if w < g c then g c else w) a := by
  intro l
  induction l with
  | nil => intro a c hc; simp at hc
  | cons x rest ih =>
    intro a c hc
    rcases List.mem_cons.mp hc with h | h
    · subst h
      refine le_trans ?_ (widthFold_ge g rest (if a < g c then g c else a))
      split <;> omega
    · exact ih (if a < g x then g x else a) c h

theorem widthFold_attained (g : Commit → Nat) :
    ∀ (l : List Commit) (a : Nat),
      l.foldl (fun w c => if w < g c then g c else w) a = a ∨
      ∃ c ∈ l, l.foldl (fun w c => if w < g c then g c else w) a = g c := by
  intro l
  induction l with
  | nil => intro a; left; rfl
  | cons x rest ih =>
    intro a
    simp only [List.foldl_cons]
    rcases ih (if a < g x then g x else a) with h | ⟨c, hc, h⟩
    · by_cases hx : a < g x
      · right
        exact ⟨x, by simp, by rw [h, if_pos hx]⟩
      · left
        rw [h, if_neg hx]
    · right
      exact ⟨c, by simp [hc], h⟩

/-! ### Lemmas about the result-count extraction -/

theorem resultCount_foldl (conts : List (List ChildNode)) (acc : String) :
    conts.foldl (fun results cont =>
      match firstTextMatch cont with
      | some m => m
      | none => results) acc =
    ((conts.filterMap firstTextMatch).getLast?).getD acc := by
  induction conts generalizing acc with
  | nil => rfl
  | cons c rest ih =>
    simp only [List.foldl_cons]
    cases hc : firstTextMatch c with
    | none => simp [List.filterMap_cons, hc, ih]
    | some m =>
      simp only [List.filterMap_cons, hc]
      rw [ih m]
      cases hl : rest.filterMap firstTextMatch with
      | nil => simp [hl]
      | cons x xs =>
        rw [List.getLast?_eq_getLast (x :: xs) (by simp)]
        rfl

theorem getD_of_ge (l : List String) (n : Nat) (d : String) (h : l.length ≤ n) :
    l.getD n d = d := by
  induction l generalizing n with
  | nil => simp [List.getD]
  | cons x xs ih =>
    cases n with
    | zero => simp at h
    | succ m =>
      rw [List.getD_cons_succ]
      exact ih m (by simpa using h)

theorem specExtractRow_of_empty (r : Row) (hs : (r.cells.map Cell.text).getD 2 "" = "") :
    specExtractRow r = none := by
  unfold specExtractRow
  simp only [hs, ne_eq, not_true_eq_false, if_false]

theorem specExtractRow_of_nonempty (r : Row) (hs : (r.cells.map Cell.text).getD 2 "" ≠ "") :
    specExtractRow r = some
      { Message := trimSpace ((r.cells.map Cell.text).getD 0 "")
        Repo := (r.cells.map Cell.text).getD 1 ""
        RepoURL := (rowHrefs r).getD 0 ""
        Sha1 := (r.cells.map Cell.text).getD 2 ""
        CommitURL := (rowHrefs r).getD 1 "" } := by
  unfold specExtractRow
  simp only [ne_eq, hs, not_false_eq_true, if_true]

/-! ### The claims -/

/-- Commit used by the C1 counterexample: its URL is one East-Asian-wide
glyph. -/
def c1cx : Commit :=
  { Repo := "", RepoURL := "", Sha1 := "abc1234", CommitURL := "日", Message := "" }

/-- C1, counterexample: the URL column width is computed with
utf8.RuneCountInString, not with the display width — for the commit list
[c1cx], whose URL is the single East-Asian-wide glyph 日, the computed
URL column width is the code-point count 1, not the display width 2. -/
theorem c1_url_width_not_display : maxURLWidth [c1cx] = 1 ∧
    stringWidth c1cx.CommitURL = 2 ∧ maxURLWidth [c1cx] ≠ stringWidth c1cx.CommitURL := by
  decide

/-- C1 (amended): the repo-name and commit-message column maxima are
maxima of the Width Calculator display width, while the commit-URL column
maximum is a maximum of the raw code-point count: every commit is bounded
by the corresponding maximum under that measure, and each maximum is 0 or
attained by some commit under that measure. -/
theorem c1_width_measures (commits : List Commit) :
    (∀ c ∈ commits, stringWidth c.Repo ≤ maxRepoWidth commits ∧
      stringWidth c.Message ≤ maxMessageWidth commits ∧
      c.CommitURL.length ≤ maxURLWidth commits) ∧
    (maxRepoWidth commits = 0 ∨ ∃ c ∈ commits, maxRepoWidth commits = stringWidth c.Repo) ∧
    (maxMessageWidth commits = 0 ∨ ∃ c ∈ commits, maxMessageWidth commits = stringWidth c.Message) ∧
    (maxURLWidth commits = 0 ∨ ∃ c ∈ commits, maxURLWidth commits = c.CommitURL.length) := by
  refine ⟨fun c hc => ⟨?_, ?_, ?_⟩, ?_, ?_, ?_⟩
  · exact widthFold_le_of_mem (fun c => stringWidth c.Repo) commits 0 c hc
  · exact widthFold_le_of_mem (fun c => stringWidth c.Message) commits 0 c hc
  · exact widthFold_le_of_mem (fun c => c.CommitURL.length) commits 0 c hc
  · exact widthFold_attained (fun c => stringWidth c.Repo) commits 0
  · exact widthFold_attained (fun c => stringWidth c.Message) commits 0
  · exact widthFold_attained (fun c => c.CommitURL.length) commits 0

/-- Commit used by the C1 witness. -/
def c1w : Commit :=
  { Repo := "日本", RepoURL := "/r", Sha1 := "abc1234", CommitURL := "/c", Message := "fix 日" }

/-- C1 witness: the bound part of c1_width_measures at the singleton
commit list [c1w]. -/
theorem c1_width_measures_witness :
    stringWidth c1w.Repo ≤ maxRepoWidth [c1w] ∧
    stringWidth c1w.Message ≤ maxMessageWidth [c1w] ∧
    c1w.CommitURL.length ≤ maxURLWidth [c1w] :=
  (c1_width_measures [c1w]).1 c1w (by simp)

/-- Row used by the C2 counterexample: its sha1 cell is a single space. -/
def c2row : Row :=
  { cells := [ { text := "m", anchors := [] },
               { text := "r", anchors := [] },
               { text := " ", anchors := [] } ] }

/-- Commit the extractor produces from c2row. -/
def c2commit : Commit :=
  { Repo := "r", RepoURL := "", Sha1 := " ", CommitURL := "", Message := "m" }

/-- C2, counterexample: a row whose sha1 cell is all-whitespace is
accepted — the extractor compares the raw cell text against the empty
string and never trims sha1, so the all-whitespace sha1 " " (empty after
trimming) still yields a commit. -/
theorem c2_untrimmed_sha1_accepted :
    crawlRows [c2row] = some [c2commit] ∧ c2commit.Sha1 = " " ∧
    trimSpace c2commit.Sha1 = "" := by
  decide

/-- C2 (amended): on any table whose rows stay inside the fixed slots, the
extractor yields exactly the rows whose raw sha1 cell text is non-empty
(no whitespace trimming is applied to sha1), each mapped positionally,
and every other row is silently skipped; a row is accepted iff its raw
sha1 cell text is non-empty. -/
theorem c2_row_filtering (rows : List Row)
    (h : ∀ r ∈ rows, r.cells.length ≤ 3 ∧ rowHrefCount r ≤ 2) :
    crawlRows rows = some (rows.filterMap specExtractRow) ∧
    (∀ r : Row, (specExtractRow r).isSome = true ↔ (r.cells.map Cell.text).getD 2 "" ≠ "") := by
  refine ⟨crawlRows_eq rows h, fun r => ?_⟩
  unfold specExtractRow
  by_cases hs : (r.cells.map Cell.text).getD 2 "" = "" <;> simp [hs]

/-- Well-formed row used by the C2 witness. -/
def c2rowGood : Row :=
  { cells := [ { text := "fix parser", anchors := [] },
               { text := "repoA", anchors := [ { href := "/repoA" } ] },
               { text := "abc1234", anchors := [ { href := "/commit/abc1234" } ] } ] }

/-- Empty-hash row used by the C2 witness. -/
def c2rowEmpty : Row :=
  { cells := [ { text := "m", anchors := [] },
               { text := "r", anchors := [] },
               { text := "", anchors := [] } ] }

/-- C2 witness: one well-formed row plus one row with an empty hash cell
yields exactly one Commit. -/
theorem c2_row_filtering_witness :
    crawlRows [c2rowGood, c2rowEmpty] = some ([c2rowGood, c2rowEmpty].filterMap specExtractRow) ∧
    ([c2rowGood, c2rowEmpty].filterMap specExtractRow).length = 1 :=
  ⟨(c2_row_filtering [c2rowGood, c2rowEmpty] (by decide)).1, by decide⟩

/-- The QueryResult the program constructs on fetch failure. -/
def c3failQR : QueryResult := { Commits := [], ResultCount := "", TotalPages := "" }

/-- C3, counterexample: on fetch failure crawl constructs a QueryResult
whose totalPages is the empty string, so totalPages is not non-empty for
every constructed QueryResult. -/
theorem c3_failure_totalPages_empty :
    crawl (Except.error "no such host") = some (c3failQR, some "no such host") ∧
    c3failQR.TotalPages = "" := by
  decide

/-- C3 (amended): every QueryResult constructed from a successfully
fetched document has a non-empty totalPages, and when the document has no
pagination control at all totalPages equals "1"; only the QueryResult
built on the fetch-failure path carries an empty totalPages. -/
theorem c3_success_totalPages (doc : Doc) (qr : QueryResult) (e : Option String)
    (h : crawl (Except.ok doc) = some (qr, e)) :
    qr.TotalPages ≠ "" ∧ (doc.prevOfNextPageText = "" → qr.TotalPages = "1") := by
  simp only [crawl] at h
  cases hr : crawlRows doc.rows with
  | none => exact absurd h (by simp [hr])
  | some cs =>
    simp only [hr, Option.some.injEq, Prod.mk.injEq] at h
    obtain ⟨h1, -⟩ := h
    subst h1
    unfold getTotalPages
    by_cases hp : doc.prevOfNextPageText = "" <;> simp [hp]

/-- Document and QueryResult used by the C3 witness. -/
def c3doc : Doc := { rows := [], containers := [], prevOfNextPageText := "" }

/-- QueryResult crawl constructs from c3doc. -/
def c3qr : QueryResult := { Commits := [], ResultCount := "", TotalPages := "1" }

/-- C3 witness: a successfully fetched document without pagination yields
totalPages "1". -/
theorem c3_success_totalPages_witness : c3qr.TotalPages ≠ "" ∧ c3qr.TotalPages = "1" :=
  ⟨(c3_success_totalPages c3doc c3qr none (by decide)).1,
   (c3_success_totalPages c3doc c3qr none (by decide)).2 rfl⟩

/-- Row used by the C4 counterexample: four td cells. -/
def c4row : Row :=
  { cells := [ { text := "a", anchors := [] }, { text := "b", anchors := [] },
               { text := "c", anchors := [] }, { text := "d", anchors := [] } ] }

/-- C4, counterexample: a row with 4 data cells is not processed totally —
the write cellsTxt[3] into the fixed [3]string array is out of range and
the extractor panics (modelled as none) instead of producing a commit or
skipping the row. -/
theorem c4_four_cells_panic : c4row.cells.length = 4 ∧ processRow c4row = none := by
  decide

/-- C4 (amended): a row is processed totally (a well-defined commit or a
silent skip) exactly when it stays within the fixed slots — at most 3
data cells and at most 2 non-empty anchor hrefs; a row with more than 3
data cells, or more than 2 anchors with non-empty href, makes the
extractor fail with an out-of-range index instead. -/
theorem c4_extractor_bounds (row : Row) :
    (row.cells.length ≤ 3 → rowHrefCount row ≤ 2 → ∃ o, processRow row = some o) ∧
    (3 < row.cells.length → processRow row = none) ∧
    (2 < rowHrefCount row → processRow row = none) :=
  ⟨fun h1 h2 => ⟨specExtractRow row, processRow_eq row h1 h2⟩,
   fun h => processRow_none_cells row h,
   fun h => processRow_none_hrefs row h⟩

/-- Row used by the C4 witness: three non-empty hrefs. -/
def c4rowH : Row :=
  { cells := [ { text := "a", anchors := [ { href := "/1" }, { href := "/2" }, { href := "/3" } ] },
               { text := "b", anchors := [] },
               { text := "c", anchors := [] } ] }

/-- C4 witness: the href-overflow part of c4_extractor_bounds at c4rowH. -/
theorem c4_extractor_bounds_witness : processRow c4rowH = none :=
  (c4_extractor_bounds c4rowH).2.2 (by decide)

/-- C5: the Keyword Highlighter decorates exactly the non-overlapping,
leftmost-first, case-sensitive literal occurrences of the keyword terms
and leaves all other text unchanged — with the identity decoration the
output is always the input; for a keyword with at least one term none of
whose terms occurs in the message, the output equals the message for any
decoration; and on the multi-term example both terms are decorated while
the text between them is untouched. -/
theorem c5_highlighting (message keyword : String) (dec : String → String) :
    highlightWords message keyword (fun s => s) = message ∧
    (goFields keyword ≠ [] →
      (∀ t ∈ goFields keyword, occursWithin t.toList message.toList = false) →
      highlightWords message keyword dec = message) ∧
    highlightWords "fix bug in parser" "fix parser" (fun s => "[" ++ s ++ "]") =
      "[fix] bug in [parser]" := by
  refine ⟨?_, ?_, by decide⟩
  · simp [highlightWords, scan_id, mkToList]
  · intro hne hocc
    have hwords : ((goFields keyword).map String.toList).isEmpty = false := by
      cases hgf : goFields keyword with
      | nil => exact absurd hgf hne
      | cons a l => simp [hgf]
    have hterms : ∀ t ∈ (goFields keyword).map String.toList,
        occursWithin t message.toList = false := by
      intro t ht
      obtain ⟨u, hu, rfl⟩ := List.mem_map.mp ht
      exact hocc u hu
    simp only [highlightWords, hwords, Bool.false_eq_true, if_false]
    rw [scan_nomatch _ dec _ message.toList hterms, mkToList]

/-- C5 witness: a two-term keyword with no occurrence in the message
leaves the message unchanged under an arbitrary decoration. -/
theorem c5_highlighting_witness :
    highlightWords "update readme" "zzz qqq" (fun s => "<" ++ s ++ ">") = "update readme" :=
  (c5_highlighting "update readme" "zzz qqq" (fun s => "<" ++ s ++ ">")).2.1
    (by decide) (by decide)

/-- C6: the structured renderer emits one record; a non-empty error field
only ever occurs with an empty commit sequence; on success the record
carries the extracted commits and an empty error; on failure it carries
an empty commit sequence and the failure description. -/
theorem c6_json_record (result : QueryResult) (e : Option String) :
    ((showResultAsJson result e).Error ≠ "" → (showResultAsJson result e).Commits = []) ∧
    (e = none → (showResultAsJson result e).Commits = result.Commits ∧
      (showResultAsJson result e).Error = "") ∧
    (∀ msg : String, e = some msg → msg ≠ "" →
      (showResultAsJson result e).Commits = [] ∧ (showResultAsJson result e).Error = msg) := by
  cases e <;> simp [showResultAsJson]

/-- QueryResult used by the C6 witness. -/
def c6qr : QueryResult :=
  { Commits := [c1w], ResultCount := "1 results", TotalPages := "1" }

/-- C6 witness: a failed fetch rendered in structured mode yields an
empty commit sequence and the failure description. -/
theorem c6_json_record_witness :
    (showResultAsJson c6qr (some "connection refused")).Commits = [] ∧
    (showResultAsJson c6qr (some "connection refused")).Error = "connection refused" :=
  (c6_json_record c6qr (some "connection refused")).2.2 "connection refused" rfl (by decide)

/-- Document used by the C7 counterexample: two containers, each with a
matching text node. -/
def c7doc : Doc :=
  { rows := []
    containers := [[ChildNode.textNode "1 results"], [ChildNode.textNode "2 results"]]
    prevOfNextPageText := "" }

/-- C7, counterexample: the first matching text node of the document (in
its first container) matches "1 results", yet the extraction returns
"2 results" — a later container overwrites the earlier match, so the
function does not return the first match. -/
theorem c7_not_first_match :
    firstTextMatch [ChildNode.textNode "1 results"] = some "1 results" ∧
    getResultCount c7doc = "2 results" := by
  decide

/-- C7 (amended): the extraction scans only the text-node children of the
designated containers (element children are skipped); within one
container the first matching text node wins, but across containers the
last container that has a matching text node overwrites earlier results;
when no container has a matching text node the result is the empty
string. -/
theorem c7_result_count (doc : Doc) :
    getResultCount doc = specResultCount doc.containers ∧
    (∀ (d : String) (rest : List ChildNode),
      firstTextMatch (ChildNode.elemNode d :: rest) = firstTextMatch rest) ∧
    ((∀ cont ∈ doc.containers, firstTextMatch cont = none) → getResultCount doc = "") := by
  refine ⟨resultCount_foldl doc.containers "", fun d rest => rfl, fun h => ?_⟩
  have h1 : getResultCount doc = specResultCount doc.containers :=
    resultCount_foldl doc.containers ""
  rw [h1]
  unfold specResultCount
  rw [List.filterMap_eq_nil_iff.mpr h]
  rfl

/-- Document used by the C7 witness: one container whose only child is a
nested element. -/
def c7wdoc : Doc :=
  { rows := [], containers := [[ChildNode.elemNode "9 results"]], prevOfNextPageText := "" }

/-- C7 witness: a document whose containers have no matching text-node
child yields the empty string. -/
theorem c7_result_count_witness : getResultCount c7wdoc = "" :=
  (c7_result_count c7wdoc).2.2 (by decide)

/-- C8: for a non-empty commit sequence the fifth emitted line is the
separator: a line made of dashes whose length is
repoWidth + messageWidth + urlWidth + 18, the three widths being the
per-column maxima over all commits. -/
theorem c8_separator (d : Decorators) (result : QueryResult) (url keyword : String)
    (page : Int) (h : result.Commits ≠ []) :
    (showResult d result url keyword page).get? 4 =
      some (String.mk (List.replicate
        (maxRepoWidth result.Commits + maxMessageWidth result.Commits +
          maxURLWidth result.Commits + 18) '-')) ∧
    (String.mk (List.replicate
        (maxRepoWidth result.Commits + maxMessageWidth result.Commits +
          maxURLWidth result.Commits + 18) '-')).length =
      maxRepoWidth result.Commits + maxMessageWidth result.Commits +
        maxURLWidth result.Commits + 18 := by
  have hne : result.Commits.isEmpty = false := by
    cases hc : result.Commits with
    | nil => exact absurd hc h
    | cons a l => rfl
  constructor
  · simp [showResult, hne]
  · simp [String.length]

/-- Identity decorators used by the renderer witnesses. -/
def plainDecor : Decorators := ⟨fun s => s, fun s => s, fun s => s⟩

/-- QueryResult used by the C8 witness. -/
def c8qr : QueryResult :=
  { Commits := [ { Repo := "rr", RepoURL := "/r", Sha1 := "abc1234", CommitURL := "/c", Message := "mm" } ]
    ResultCount := "1 results", TotalPages := "1" }

/-- C8 witness: the separator of a one-commit table. -/
theorem c8_separator_witness :
    (showResult plainDecor c8qr "u" "k" 1).get? 4 =
      some (String.mk (List.replicate
        (maxRepoWidth c8qr.Commits + maxMessageWidth c8qr.Commits +
          maxURLWidth c8qr.Commits + 18) '-')) :=
  (c8_separator plainDecor c8qr "u" "k" 1 (by decide)).1

/-- C9: an empty commit sequence renders exactly the fixed notice, the
query URL line, and the blank line of the trailing double newline —
no summary line, no header, no separator, no data rows. -/
theorem c9_empty_render (d : Decorators) (result : QueryResult) (url keyword : String)
    (page : Int) (h : result.Commits = []) :
    showResult d result url keyword page = ["No Results Found.", "  url: " ++ url, ""] := by
  simp [showResult, h]

/-- QueryResult used by the C9 witness. -/
def c9qr : QueryResult := { Commits := [], ResultCount := "7 results", TotalPages := "3" }

/-- C9 witness: the empty-result rendering at a concrete QueryResult. -/
theorem c9_empty_render_witness :
    showResult plainDecor c9qr "http://x" "kw" 2 = ["No Results Found.", "  url: http://x", ""] :=
  c9_empty_render plainDecor c9qr "http://x" "kw" 2 rfl

/-- Row used by the C10 counterexample: fewer than 3 data cells but three
non-empty anchor hrefs. -/
def c10row : Row :=
  { cells := [ { text := "a", anchors := [ { href := "/1" }, { href := "/2" }, { href := "/3" } ] },
               { text := "b", anchors := [] } ] }

/-- C10, counterexample: a row with fewer than 3 data cells (so inside the
scope of the claim) but more than 2 non-empty hrefs does not degrade
gracefully — the write cellsHref[2] into the fixed [2]string array is out
of range and the extractor panics (modelled as none). -/
theorem c10_few_cells_many_hrefs_panic :
    c10row.cells.length < 3 ∧ processRow c10row = none := by
  decide

/-- C10 (amended): a row within the fixed slots — at most 3 data cells
and at most 2 non-empty anchor hrefs — degrades gracefully: missing
fields are left as empty strings, the row is accepted exactly when its
raw sha1 cell text is non-empty, and an accepted commit may thus have
empty URL or repo fields; rows exceeding the fixed slots instead fail
with an out-of-range index. -/
theorem c10_graceful_degrade (row : Row) (hc : row.cells.length ≤ 3)
    (hh : rowHrefCount row ≤ 2) :
    processRow row = some (specExtractRow row) ∧
    (∀ c : Commit, specExtractRow row = some c →
      c.Sha1 ≠ "" ∧
      (rowHrefCount row < 2 → c.CommitURL = "") ∧
      (rowHrefCount row = 0 → c.RepoURL = "") ∧
      (row.cells.length < 2 → c.Repo = "")) ∧
    (row.cells.length < 3 → specExtractRow row = none) := by
  refine ⟨processRow_eq row hc hh, fun c hsome => ?_, fun hlt => ?_⟩
  · by_cases hs : (row.cells.map Cell.text).getD 2 "" = ""
    · rw [specExtractRow_of_empty row hs] at hsome
      exact absurd hsome (by simp)
    · rw [specExtractRow_of_nonempty row hs] at hsome
      injection hsome with hcc
      subst hcc
      refine ⟨hs, fun h2 => ?_, fun h0 => ?_, fun hr => ?_⟩
      · exact getD_of_ge (rowHrefs row) 1 "" (by unfold rowHrefCount at h2; omega)
      · exact getD_of_ge (rowHrefs row) 0 "" (by unfold rowHrefCount at h0; omega)
      · exact getD_of_ge (row.cells.map Cell.text) 1 "" (by simp; omega)
  · exact specExtractRow_of_empty row
      (getD_of_ge (row.cells.map Cell.text) 2 "" (by simp; omega))

/-- Row used by the C10 witness: three cells with a non-empty sha1 and no
anchors at all. -/
def c10wrow : Row :=
  { cells := [ { text := "m", anchors := [] },
               { text := "r", anchors := [] },
               { text := "abc1234", anchors := [] } ] }

/-- C10 witness: a row with no hrefs is still accepted (its sha1 is
non-empty) and its commit has empty URL fields. -/
theorem c10_graceful_degrade_witness :
    processRow c10wrow = some (specExtractRow c10wrow) ∧
    specExtractRow c10wrow =
      some { Repo := "r", RepoURL := "", Sha1 := "abc1234", CommitURL := "", Message := "m" } :=
  ⟨(c10_graceful_degrade c10wrow (by decide) (by decide)).1, by decide⟩
